import Mathlib

/-!
Verification of the SaturnSwap connector core (SAIB-Inc/dexter).

The development shallowly embeds:
  * the schema-driven datum codec (push/pull) over the SaturnSwap schema
    definitions (`poolDefinition` from `src/dex/definitions/saturnswap/pool.ts`,
    `orderDefinition` from the unnamed order-definition source file);
  * the constant-product swap math of `SaturnSwap.estimatedGive`,
    `SaturnSwap.estimatedReceive` and `SaturnSwap.priceImpactPercent`
    (`src/dex/saturnswap.ts`, the variant that implements the formulas;
    the other variant in the same file stubs these methods out);
  * the order lifecycle `SaturnSwap.buildSwapOrder`,
    `SaturnSwap.buildCancelSwapOrder` and `SaturnSwap.swapOrderFees`
    (`src/dex/saturnswap.ts`, the variant with the full payment assembly);
  * the datum probing helpers `decodeSwapDatum` and `decodeControlDatum`
    from the unnamed decode source file.

TypeScript `bigint` values are embedded as `Int`; `bigint` division (which
truncates toward zero) is `Int.tdiv`; a thrown `RangeError` on division by
zero is an explicit `none`/error branch.  JavaScript objects used as
parameter tables are embedded as association lists whose observable content
is first-match lookup, mirroring property access.
-/

namespace Dexter

/-- Value stored under one parameter key: a byte string (embedded as the hex
string the source passes around) or an arbitrary-precision integer. -/
inductive DatumValue where
  | bytes (s : String)
  | int (i : Int)
deriving DecidableEq

mutual
/-- Modelled from the spec: the `SchemaNode` data model of the datum codec
(`DefinitionBuilder` definitions).  The codec engine itself is not among the
source files, only its schema literals and callers are; per the spec it is a
closed variant of constructor nodes with a numeric tag and ordered children,
byte-string leaves and integer leaves, each leaf carrying a parameter key. -/
inductive SchemaNode where
  | constr (tag : Nat) (fields : SchemaList)
  | bytesField (key : String)
  | intField (key : String)
/-- Ordered child list of a constructor schema node. -/
inductive SchemaList where
  | nil
  | cons (head : SchemaNode) (tail : SchemaList)
end

mutual
/-- Encoded datum tree mirroring the schema shape: constructor nodes with a
concrete tag and children, byte-string leaves, integer leaves. -/
inductive EncodedDatum where
  | constr (tag : Nat) (fields : EDList)
  | bytes (s : String)
  | int (i : Int)
/-- Child list of an encoded constructor node. -/
inductive EDList where
  | nil
  | cons (head : EncodedDatum) (tail : EDList)
end

/-- Builds a schema child list from a Lean list literal. -/
def schemaFields (l : List SchemaNode) : SchemaList := l.foldr .cons .nil

/-- Builds an encoded child list from a Lean list literal. -/
def datumFields (l : List EncodedDatum) : EDList := l.foldr .cons .nil

/-- Length of an encoded child list. -/
def EDList.length : EDList → Nat
  | .nil => 0
  | .cons _ t => 1 + t.length

/-- Parameter table: named keys mapped to byte-string or integer values.
Embedded as an association list; its observable content is `findVal`
(first-match lookup), mirroring JavaScript object property access. -/
abbrev ParameterTable := List (String × DatumValue)

/-- First-match lookup in a parameter table, the observable content of the
table (JavaScript property access). -/
def findVal : ParameterTable → String → Option DatumValue
  | [], _ => none
  | (k, v) :: t, key => if k = key then some v else findVal t key

/-- Keys of a parameter table, in order. -/
def tableKeys (P : ParameterTable) : List String := P.map Prod.fst

mutual
/-- Modelled from the spec: `DefinitionBuilder.pushParameters` (the codec
`push` direction), absent from the source files.  Recursively walks the
schema; constructor nodes keep their tag and recurse positionally; a leaf
looks its key up in the table and fails (`MissingParameter`, embedded as
`none`) when the key is absent or holds a value of the wrong kind. -/
def pushNode : SchemaNode → ParameterTable → Option EncodedDatum
  | .constr tag fields, P =>
    match pushList fields P with
    | some ds => some (.constr tag ds)
    | none => none
  | .bytesField key, P =>
    match findVal P key with
    | some (.bytes s) => some (.bytes s)
    | _ => none
  | .intField key, P =>
    match findVal P key with
    | some (.int i) => some (.int i)
    | _ => none
/-- Modelled from the spec: `push` over an ordered child list. -/
def pushList : SchemaList → ParameterTable → Option EDList
  | .nil, _ => some .nil
  | .cons f fs, P =>
    match pushNode f P, pushList fs P with
    | some d, some ds => some (.cons d ds)
    | _, _ => none
end

mutual
/-- Modelled from the spec: `DefinitionBuilder.pullParameters` (the codec
`pull` direction), absent from the source files.  Walks schema and datum in
lock-step; a tag or arity or leaf-kind disagreement is a hard failure
(`SchemaMismatch`, embedded as `none`); leaves record the decoded value
under the schema key.  The collected entries are returned in traversal
order. -/
def pullNode : SchemaNode → EncodedDatum → Option ParameterTable
  | .constr tag fields, .constr tag2 ds =>
    if tag = tag2 then pullList fields ds else none
  | .bytesField key, .bytes s => some [(key, .bytes s)]
  | .intField key, .int i => some [(key, .int i)]
  | _, _ => none
/-- Modelled from the spec: `pull` over an ordered child list. -/
def pullList : SchemaList → EDList → Option ParameterTable
  | .nil, .nil => some []
  | .cons f fs, .cons d ds =>
    match pullNode f d, pullList fs ds with
    | some e, some es => some (e ++ es)
    | _, _ => none
  | _, _ => none
end

mutual
/-- Keys named by the leaves of a schema node, in traversal order. -/
def keysNode : SchemaNode → List String
  | .constr _ fields => keysList fields
  | .bytesField key => [key]
  | .intField key => [key]
/-- Keys named by the leaves of a schema child list. -/
def keysList : SchemaList → List String
  | .nil => []
  | .cons f fs => keysNode f ++ keysList fs
end

mutual
/-- Validity of a parameter table for a schema (leaf side): every leaf key
is present in the table with a value of the leaf's kind. -/
def validNode : SchemaNode → ParameterTable → Bool
  | .constr _ fields, P => validList fields P
  | .bytesField key, P =>
    match findVal P key with
    | some (.bytes _) => true
    | _ => false
  | .intField key, P =>
    match findVal P key with
    | some (.int _) => true
    | _ => false
/-- Validity over an ordered child list. -/
def validList : SchemaList → ParameterTable → Bool
  | .nil, _ => true
  | .cons f fs, P => validNode f P && validList fs P
end

/-! ### SaturnSwap schema literals, translated from the source

Parameter keys are the members of the `DatumParameterKey` enum, embedded by
name. -/

/-- SaturnSwap pool datum schema, the `ControlDatum` variant
(`src/dex/definitions/saturnswap/pool.ts`, `poolDefinition`): constructor
tag 2 with eleven fields.  The source reuses the `LpFee` key for two
different fields (the token-one minimum price and the is-active flag). -/
def poolDefinition : SchemaNode :=
  .constr 2 (schemaFields [
    .bytesField "PoolAssetAPolicyId",
    .bytesField "PoolAssetAAssetName",
    .intField "LpFee",
    .intField "LpFeeNumerator",
    .intField "ReserveA",
    .bytesField "PoolAssetBPolicyId",
    .bytesField "PoolAssetBAssetName",
    .intField "TotalLpTokens",
    .intField "LpFeeDenominator",
    .intField "ReserveB",
    .intField "LpFee"])

/-- SaturnSwap order datum schema, the `SwapDatum` layout
(`orderDefinition` in the unnamed order-definition source file):
constructor tag 0 with the owner address tree, sell token, sell amount,
buy token, wanted amount, the fixed empty expiry variant and the output
reference. -/
def orderDefinition : SchemaNode :=
  .constr 0 (schemaFields [
    .constr 0 (schemaFields [
      .constr 0 (schemaFields [.bytesField "SenderPubKeyHash"]),
      .constr 0 (schemaFields [
        .constr 0 (schemaFields [
          .constr 0 (schemaFields [.bytesField "SenderStakingKeyHash"])])])]),
    .bytesField "TokenPolicyId",
    .bytesField "TokenAssetName",
    .intField "SwapInAmount",
    .bytesField "SwapOutTokenPolicyId",
    .bytesField "SwapOutTokenAssetName",
    .intField "MinReceive",
    .constr 0 (schemaFields []),
    .constr 0 (schemaFields [
      .bytesField "PoolIdentifier",
      .intField "BatcherFee"])])

/-! ### Lookup lemmas -/

theorem findVal_mem {P : ParameterTable} {k : String} {v : DatumValue}
    (h : findVal P k = some v) : (k, v) ∈ P := by
  induction P with
  | nil => simp [findVal] at h
  | cons hd t ih =>
    obtain ⟨k1, v1⟩ := hd
    by_cases hk : k1 = k
    · subst hk
      simp [findVal] at h
      subst h
      exact List.mem_cons_self _ _
    · simp only [findVal, if_neg hk] at h
      exact List.mem_cons_of_mem _ (ih h)

theorem mem_keys_of_findVal {P : ParameterTable} {k : String} {v : DatumValue}
    (h : findVal P k = some v) : k ∈ tableKeys P := by
  have := findVal_mem h
  exact List.mem_map.mpr ⟨(k, v), this, rfl⟩

theorem findVal_isSome_of_mem_keys {P : ParameterTable} {k : String}
    (h : k ∈ tableKeys P) : ∃ v, findVal P k = some v := by
  induction P with
  | nil => simp [tableKeys] at h
  | cons hd t ih =>
    obtain ⟨k1, v1⟩ := hd
    by_cases hk : k1 = k
    · exact ⟨v1, by simp [findVal, hk]⟩
    · simp only [tableKeys, List.map_cons, List.mem_cons] at h
      rcases h with h | h
      · exact absurd h.symm hk
      · obtain ⟨v, hv⟩ := ih h
        exact ⟨v, by simp [findVal, hk, hv]⟩

/-! ### Round-trip machinery (claim C1) -/

mutual
theorem pushNode_isSome (s : SchemaNode) (P : ParameterTable)
    (h : validNode s P = true) : ∃ d, pushNode s P = some d := by
  cases s with
  | constr tag fields =>
    obtain ⟨ds, hds⟩ := pushList_isSome fields P h
    exact ⟨.constr tag ds, by simp [pushNode, hds]⟩
  | bytesField key =>
    simp only [validNode] at h
    cases hf : findVal P key with
    | none => rw [hf] at h; simp at h
    | some v =>
      cases v with
      | bytes s => exact ⟨.bytes s, by simp [pushNode, hf]⟩
      | int i => rw [hf] at h; simp at h
  | intField key =>
    simp only [validNode] at h
    cases hf : findVal P key with
    | none => rw [hf] at h; simp at h
    | some v =>
      cases v with
      | int i => exact ⟨.int i, by simp [pushNode, hf]⟩
      | bytes s => rw [hf] at h; simp at h
theorem pushList_isSome (l : SchemaList) (P : ParameterTable)
    (h : validList l P = true) : ∃ ds, pushList l P = some ds := by
  cases l with
  | nil => exact ⟨.nil, rfl⟩
  | cons f fs =>
    simp only [validList, Bool.and_eq_true] at h
    obtain ⟨d, hd⟩ := pushNode_isSome f P h.1
    obtain ⟨ds, hds⟩ := pushList_isSome fs P h.2
    exact ⟨.cons d ds, by simp [pushList, hd, hds]⟩
end

mutual
theorem pullNode_of_pushNode (s : SchemaNode) (P : ParameterTable)
    (d : EncodedDatum) (h : pushNode s P = some d) :
    ∃ E, pullNode s d = some E ∧ tableKeys E = keysNode s ∧
      ∀ kv ∈ E, findVal P kv.1 = some kv.2 := by
  cases s with
  | constr tag fields =>
    simp only [pushNode] at h
    cases hp : pushList fields P with
    | none => rw [hp] at h; exact absurd h (by simp)
    | some ds =>
      rw [hp] at h
      simp only [Option.some.injEq] at h
      subst h
      obtain ⟨E, hE, hkeys, hprop⟩ := pullList_of_pushList fields P ds hp
      exact ⟨E, by simp [pullNode, hE], by simpa [keysNode] using hkeys, hprop⟩
  | bytesField key =>
    simp only [pushNode] at h
    cases hf : findVal P key with
    | none => rw [hf] at h; exact absurd h (by simp)
    | some v =>
      cases v with
      | bytes s =>
        rw [hf] at h
        simp only [Option.some.injEq] at h
        subst h
        refine ⟨[(key, .bytes s)], rfl, by simp [tableKeys, keysNode], ?_⟩
        intro kv hkv
        simp only [List.mem_singleton] at hkv
        subst hkv
        exact hf
      | int i => rw [hf] at h; exact absurd h (by simp)
  | intField key =>
    simp only [pushNode] at h
    cases hf : findVal P key with
    | none => rw [hf] at h; exact absurd h (by simp)
    | some v =>
      cases v with
      | int i =>
        rw [hf] at h
        simp only [Option.some.injEq] at h
        subst h
        refine ⟨[(key, .int i)], rfl, by simp [tableKeys, keysNode], ?_⟩
        intro kv hkv
        simp only [List.mem_singleton] at hkv
        subst hkv
        exact hf
      | bytes s => rw [hf] at h; exact absurd h (by simp)
theorem pullList_of_pushList (l : SchemaList) (P : ParameterTable)
    (ds : EDList) (h : pushList l P = some ds) :
    ∃ E, pullList l ds = some E ∧ tableKeys E = keysList l ∧
      ∀ kv ∈ E, findVal P kv.1 = some kv.2 := by
  cases l with
  | nil =>
    cases ds with
    | nil => exact ⟨[], rfl, by simp [tableKeys, keysList], by simp⟩
    | cons d ds2 => simp [pushList] at h
  | cons f fs =>
    simp only [pushList] at h
    cases hp : pushNode f P with
    | none => rw [hp] at h; exact absurd h (by simp)
    | some d =>
      cases hq : pushList fs P with
      | none => rw [hp, hq] at h; exact absurd h (by simp)
      | some ds2 =>
        rw [hp, hq] at h
        simp only [Option.some.injEq] at h
        subst h
        obtain ⟨E1, hE1, hk1, hp1⟩ := pullNode_of_pushNode f P d hp
        obtain ⟨E2, hE2, hk2, hp2⟩ := pullList_of_pushList fs P ds2 hq
        refine ⟨E1 ++ E2, by simp [pullList, hE1, hE2], ?_, ?_⟩
        · simp [tableKeys, keysList, ← hk1, ← hk2]
        · intro kv hkv
          rcases List.mem_append.mp hkv with h1 | h2
          · exact hp1 kv h1
          · exact hp2 kv h2
end

theorem pulled_table_ext {s : SchemaNode} {P E : ParameterTable}
    (hkeys : tableKeys E = keysNode s)
    (hvals : ∀ kv ∈ E, findVal P kv.1 = some kv.2)
    (hsub : ∀ k ∈ tableKeys P, k ∈ keysNode s) :
    ∀ k, findVal E k = findVal P k := by
  intro k
  cases hP : findVal P k with
  | some v =>
    have hkP : k ∈ tableKeys P := mem_keys_of_findVal hP
    have hkE : k ∈ tableKeys E := by rw [hkeys]; exact hsub k hkP
    obtain ⟨w, hw⟩ := findVal_isSome_of_mem_keys hkE
    have : findVal P k = some w := hvals (k, w) (findVal_mem hw)
    rw [hw, this.symm.trans hP]
  | none =>
    cases hE : findVal E k with
    | none => rfl
    | some w =>
      have : findVal P k = some w := hvals (k, w) (findVal_mem hE)
      rw [this] at hP
      exact absurd hP (by simp)

/-- Claim C1 (spec-modelled codec): for every schema and every parameter
table valid for it (leaf keys present with values of the right kind, and
every table key named by some schema leaf), pushing the table and pulling
the produced datum returns exactly the same table — the same value under
every key, with no key dropped, overwritten with a different value, or
misassigned.  This covers schemas with repeated leaf keys, such as
`poolDefinition`, which uses `LpFee` for two different fields. -/
theorem codec_pull_push_roundtrip (s : SchemaNode) (P : ParameterTable)
    (hvalid : validNode s P = true)
    (hsub : ∀ k ∈ tableKeys P, k ∈ keysNode s) :
    ∃ d E, pushNode s P = some d ∧ pullNode s d = some E ∧
      ∀ k, findVal E k = findVal P k := by
  obtain ⟨d, hd⟩ := pushNode_isSome s P hvalid
  obtain ⟨E, hE, hkeys, hvals⟩ := pullNode_of_pushNode s P d hd
  exact ⟨d, E, hd, hE, pulled_table_ext hkeys hvals hsub⟩

/-- Concrete parameter table for `poolDefinition`, exercising the repeated
`LpFee` key. -/
def poolTableExample : ParameterTable :=
  [("PoolAssetAPolicyId", .bytes "aa"),
   ("PoolAssetAAssetName", .bytes "41"),
   ("LpFee", .int 1),
   ("LpFeeNumerator", .int 3),
   ("ReserveA", .int 1000000),
   ("PoolAssetBPolicyId", .bytes "bb"),
   ("PoolAssetBAssetName", .bytes "42"),
   ("TotalLpTokens", .int 500),
   ("LpFeeDenominator", .int 1000),
   ("ReserveB", .int 2000000)]

/-- Concrete parameter table for `orderDefinition`. -/
def orderTableExample : ParameterTable :=
  [("SenderPubKeyHash", .bytes "ab"),
   ("SenderStakingKeyHash", .bytes "cd"),
   ("TokenPolicyId", .bytes "11"),
   ("TokenAssetName", .bytes "22"),
   ("SwapInAmount", .int 100),
   ("SwapOutTokenPolicyId", .bytes "33"),
   ("SwapOutTokenAssetName", .bytes "44"),
   ("MinReceive", .int 95),
   ("PoolIdentifier", .bytes "55"),
   ("BatcherFee", .int 0)]

/-- Witness for claim C1: the round-trip theorem applied to the concrete
pool schema (with its repeated `LpFee` key) and to the concrete order
schema, at explicit parameter tables. -/
theorem codec_pull_push_roundtrip_witness :
    (∃ d E, pushNode poolDefinition poolTableExample = some d ∧
      pullNode poolDefinition d = some E ∧
      ∀ k, findVal E k = findVal poolTableExample k) ∧
    (∃ d E, pushNode orderDefinition orderTableExample = some d ∧
      pullNode orderDefinition d = some E ∧
      ∀ k, findVal E k = findVal orderTableExample k) :=
  ⟨codec_pull_push_roundtrip poolDefinition poolTableExample (by decide)
      (by decide),
   codec_pull_push_roundtrip orderDefinition orderTableExample (by decide)
      (by decide)⟩

/-! ### SwapMath, from `SaturnSwap.estimatedGive`, `SaturnSwap.estimatedReceive`
and `SaturnSwap.priceImpactPercent` (`src/dex/saturnswap.ts`, the variant
that implements the constant-product formulas).

The reserve pair `(reserveIn, reserveOut)` is the one selected by the
external helper `correspondingReserves`, and `feeBps` is the basis-point
fee the source derives as `round(poolFeePercent / 100 * 10000)`; both enter
here as parameters.  `bigint` division truncates toward zero (`Int.tdiv`)
and throws a `RangeError` on a zero divisor, embedded as `none`. -/

/-- Embeds `SaturnSwap.estimatedReceive`: with `poolFeeModifier =
10000 - feeBps`, the output is `amountIn * reserveOut * poolFeeModifier`
divided (truncating) by `amountIn * poolFeeModifier + reserveIn * 10000`. -/
def estimatedReceive (reserveIn reserveOut feeBps amountIn : Int) : Option Int :=
  let poolFeeModifier := 10000 - feeBps
  let swapOutNumerator := amountIn * reserveOut * poolFeeModifier
  let swapOutDenominator := amountIn * poolFeeModifier + reserveIn * 10000
  if swapOutDenominator = 0 then none
  else some (swapOutNumerator.tdiv swapOutDenominator)

/-- Embeds `SaturnSwap.estimatedGive`: with `poolFeeModifier =
10000 - feeBps`, the output is `swapOutAmount * reserveIn * 10000` divided
(truncating) by `(reserveOut - swapOutAmount) * poolFeeModifier`, plus one.
The source performs no reserve check before dividing. -/
def estimatedGive (reserveIn reserveOut feeBps swapOutAmount : Int) : Option Int :=
  let poolFeeModifier := 10000 - feeBps
  let swapInNumerator := swapOutAmount * reserveIn * 10000
  let swapInDenominator := (reserveOut - swapOutAmount) * poolFeeModifier
  if swapInDenominator = 0 then none
  else some (swapInNumerator.tdiv swapInDenominator + 1)

/-- Claim C2: for a pool with positive input reserve, nonnegative output
reserve, fee in `[0, 10000)` basis points and nonnegative input amount,
`estimatedReceive` returns exactly the constant-product output rounded
down: `floor(amountIn * (10000 - feeBps) * reserveOut /
(amountIn * (10000 - feeBps) + reserveIn * 10000))`. -/
theorem estimatedReceive_eq_floor (reserveIn reserveOut feeBps amountIn : Int)
    (hrIn : 0 < reserveIn) (hrOut : 0 ≤ reserveOut)
    (hf0 : 0 ≤ feeBps) (hf1 : feeBps < 10000) (ha : 0 ≤ amountIn) :
    estimatedReceive reserveIn reserveOut feeBps amountIn =
      some (Int.fdiv (amountIn * (10000 - feeBps) * reserveOut)
        (amountIn * (10000 - feeBps) + reserveIn * 10000)) := by
  have hfpos : (0 : Int) < 10000 - feeBps := by omega
  have hnum : 0 ≤ amountIn * reserveOut * (10000 - feeBps) :=
    mul_nonneg (mul_nonneg ha hrOut) (le_of_lt hfpos)
  have hden : 0 < amountIn * (10000 - feeBps) + reserveIn * 10000 := by
    have h1 : 0 ≤ amountIn * (10000 - feeBps) := mul_nonneg ha (le_of_lt hfpos)
    have h2 : 0 < reserveIn * 10000 := by positivity
    omega
  simp only [estimatedReceive]
  rw [if_neg (by omega)]
  congr 1
  rw [Int.tdiv_eq_ediv hnum (le_of_lt hden),
    Int.fdiv_eq_ediv _ (le_of_lt hden)]
  congr 1
  ring

/-- Witness for claim C2, at the spec scenario `reserveIn = 1000000`,
`reserveOut = 2000000`, `feeBps = 30`, `amountIn = 10000`. -/
theorem estimatedReceive_eq_floor_witness :
    estimatedReceive 1000000 2000000 30 10000 =
      some (Int.fdiv (10000 * (10000 - 30) * 2000000)
        (10000 * (10000 - 30) + 1000000 * 10000)) :=
  estimatedReceive_eq_floor 1000000 2000000 30 10000 (by decide) (by decide)
    (by decide) (by decide) (by decide)

/-- Claim C3: for a pool with positive reserves, fee in `[0, 10000)` basis
points and a wanted output strictly below the output reserve,
`estimatedGive` returns exactly the required input rounded up by the
trailing plus-one: `floor(amountOutWanted * reserveIn * 10000 /
((reserveOut - amountOutWanted) * (10000 - feeBps))) + 1`. -/
theorem estimatedGive_eq_floor_add_one
    (reserveIn reserveOut feeBps amountOutWanted : Int)
    (hrIn : 0 < reserveIn) (hrOut : 0 < reserveOut)
    (hf0 : 0 ≤ feeBps) (hf1 : feeBps < 10000)
    (hw0 : 0 ≤ amountOutWanted) (hw1 : amountOutWanted < reserveOut) :
    estimatedGive reserveIn reserveOut feeBps amountOutWanted =
      some (Int.fdiv (amountOutWanted * reserveIn * 10000)
        ((reserveOut - amountOutWanted) * (10000 - feeBps)) + 1) := by
  have hfpos : (0 : Int) < 10000 - feeBps := by omega
  have hnum : 0 ≤ amountOutWanted * reserveIn * 10000 := by positivity
  have hden : 0 < (reserveOut - amountOutWanted) * (10000 - feeBps) :=
    mul_pos (by omega) hfpos
  simp only [estimatedGive]
  rw [if_neg (by omega)]
  congr 2
  rw [Int.tdiv_eq_ediv hnum (le_of_lt hden),
    Int.fdiv_eq_ediv _ (le_of_lt hden)]

/-- Witness for claim C3, at `reserveIn = 1000000`, `reserveOut = 2000000`,
`feeBps = 30`, `amountOutWanted = 10000`. -/
theorem estimatedGive_eq_floor_add_one_witness :
    estimatedGive 1000000 2000000 30 10000 =
      some (Int.fdiv (10000 * 1000000 * 10000)
        ((2000000 - 10000) * (10000 - 30)) + 1) :=
  estimatedGive_eq_floor_add_one 1000000 2000000 30 10000 (by decide)
    (by decide) (by decide) (by decide) (by decide) (by decide)

/-- Counterexample to claim C4: at `reserveIn = 1000`, `reserveOut = 100`,
`feeBps = 0`, `amountOutWanted = 200 >= reserveOut`, `estimatedGive`
returns the number `-1999` instead of failing with
`InsufficientLiquidity`. -/
theorem estimatedGive_no_insufficient_liquidity_counterexample :
    estimatedGive 1000 100 0 200 = some (-1999) := by decide

/-- Claim C4 as amended: `estimatedGive` performs no liquidity check.  With
fee in `[0, 10000)` basis points and `amountOutWanted > reserveOut` it
still returns a number (the truncated quotient plus one, over a negative
divisor), and at `amountOutWanted = reserveOut` it fails only because the
divisor is zero (a `RangeError` from `bigint` division) — a typed
`InsufficientLiquidity` failure is never raised. -/
theorem estimatedGive_no_liquidity_check
    (reserveIn reserveOut feeBps amountOutWanted : Int)
    (hf0 : 0 ≤ feeBps) (hf1 : feeBps < 10000) :
    (reserveOut < amountOutWanted →
      ∃ n, estimatedGive reserveIn reserveOut feeBps amountOutWanted = some n) ∧
    estimatedGive reserveIn reserveOut feeBps reserveOut = none := by
  constructor
  · intro hlt
    have hneg : (reserveOut - amountOutWanted) * (10000 - feeBps) < 0 :=
      mul_neg_of_neg_of_pos (by omega) (by omega)
    refine ⟨(amountOutWanted * reserveIn * 10000).tdiv
      ((reserveOut - amountOutWanted) * (10000 - feeBps)) + 1, ?_⟩
    simp only [estimatedGive]
    rw [if_neg (ne_of_lt hneg)]
  · simp [estimatedGive]

/-- Witness for the amended claim C4: at `reserveIn = 1000`,
`reserveOut = 100`, `feeBps = 0`, asking for `200 > 100` returns a number,
and asking for exactly the reserve divides by zero. -/
theorem estimatedGive_no_liquidity_check_witness :
    (∃ n, estimatedGive 1000 100 0 200 = some n) ∧
    estimatedGive 1000 100 0 100 = none :=
  ⟨(estimatedGive_no_liquidity_check 1000 100 0 200 (by decide)
      (by decide)).1 (by decide),
   (estimatedGive_no_liquidity_check 1000 100 0 200 (by decide)
      (by decide)).2⟩

/-- Claim C5: composing the two formulas is safe.  For a pool with positive
reserves and fee in `[0, 10000)` basis points, and a wanted output
`0 < X < reserveOut`, feeding the `amountIn` computed by `estimatedGive`
back into `estimatedReceive` yields at least `X`. -/
theorem estimatedGive_receive_safety
    (reserveIn reserveOut feeBps X amountIn : Int)
    (hrIn : 0 < reserveIn) (hrOut : 0 < reserveOut)
    (hf0 : 0 ≤ feeBps) (hf1 : feeBps < 10000)
    (hX0 : 0 < X) (hX1 : X < reserveOut)
    (hgive : estimatedGive reserveIn reserveOut feeBps X = some amountIn) :
    ∃ r, estimatedReceive reserveIn reserveOut feeBps amountIn = some r ∧
      X ≤ r := by
  have hfpos : (0 : Int) < 10000 - feeBps := by omega
  set f : Int := 10000 - feeBps with hf
  -- unpack the give step
  have hden1 : (0 : Int) < (reserveOut - X) * f := mul_pos (by omega) hfpos
  have hnum1 : (0 : Int) ≤ X * reserveIn * 10000 := by positivity
  simp only [estimatedGive, ← hf] at hgive
  rw [if_neg (by omega)] at hgive
  have hA : amountIn = (X * reserveIn * 10000).tdiv ((reserveOut - X) * f) + 1 := by
    exact (Option.some.injEq _ _).mp hgive |>.symm
  rw [Int.tdiv_eq_ediv hnum1 (le_of_lt hden1)] at hA
  -- the computed input strictly clears the exact requirement
  have hkey : X * reserveIn * 10000 < amountIn * ((reserveOut - X) * f) := by
    have hmod0 : 0 ≤ (X * reserveIn * 10000) % ((reserveOut - X) * f) :=
      Int.emod_nonneg _ (by omega)
    have hmod1 : (X * reserveIn * 10000) % ((reserveOut - X) * f) <
        (reserveOut - X) * f := Int.emod_lt_of_pos _ hden1
    have hdm := Int.ediv_add_emod (X * reserveIn * 10000) ((reserveOut - X) * f)
    calc X * reserveIn * 10000
        = (reserveOut - X) * f * ((X * reserveIn * 10000) / ((reserveOut - X) * f))
            + (X * reserveIn * 10000) % ((reserveOut - X) * f) := hdm.symm
      _ < (reserveOut - X) * f * ((X * reserveIn * 10000) / ((reserveOut - X) * f))
            + (reserveOut - X) * f := by omega
      _ = ((X * reserveIn * 10000) / ((reserveOut - X) * f) + 1)
            * ((reserveOut - X) * f) := by ring
      _ = amountIn * ((reserveOut - X) * f) := by rw [← hA]
  have hApos : 0 < amountIn := by
    have : 0 ≤ (X * reserveIn * 10000) / ((reserveOut - X) * f) :=
      Int.ediv_nonneg hnum1 (le_of_lt hden1)
    omega
  -- unpack the receive step
  have hden2 : (0 : Int) < amountIn * f + reserveIn * 10000 := by
    have h1 : 0 < amountIn * f := mul_pos hApos hfpos
    have h2 : 0 < reserveIn * 10000 := by positivity
    omega
  refine ⟨(amountIn * reserveOut * f).tdiv (amountIn * f + reserveIn * 10000),
    ?_, ?_⟩
  · simp only [estimatedReceive, ← hf]
    rw [if_neg (by omega)]
  · have hnum2 : (0 : Int) ≤ amountIn * reserveOut * f := by positivity
    rw [Int.tdiv_eq_ediv hnum2 (le_of_lt hden2)]
    rw [Int.le_ediv_iff_mul_le hden2]
    nlinarith [hkey]

/-- Witness for claim C5, at `reserveIn = 1000000`, `reserveOut = 2000000`,
`feeBps = 30`, `X = 10000`, where `estimatedGive` returns `5041`. -/
theorem estimatedGive_receive_safety_witness :
    ∃ r, estimatedReceive 1000000 2000000 30 5041 = some r ∧ 10000 ≤ r :=
  estimatedGive_receive_safety 1000000 2000000 30 10000 5041 (by decide)
    (by decide) (by decide) (by decide) (by decide) (by decide) (by decide)

/-- Integer numerator term of `SaturnSwap.priceImpactPercent`
(`swapOutNumerator` there): `swapInAmount * poolFeeModifier * reserveOut`. -/
def impactQuoteNumerator (reserveIn reserveOut feeBps amountIn : Int) : Int :=
  amountIn * (10000 - feeBps) * reserveOut

/-- Integer denominator term of `SaturnSwap.priceImpactPercent`
(`swapOutDenominator` there): `swapInAmount * poolFeeModifier +
reserveIn * 10000`, written exactly as in `estimatedReceive`. -/
def impactQuoteDenominator (reserveIn reserveOut feeBps amountIn : Int) : Int :=
  amountIn * (10000 - feeBps) + reserveIn * 10000

/-- Integer numerator of the price impact fraction
(`priceImpactNumerator` in the source). -/
def priceImpactNumerator (reserveIn reserveOut feeBps amountIn : Int) : Int :=
  reserveOut * amountIn * impactQuoteDenominator reserveIn reserveOut feeBps amountIn
      * (10000 - feeBps)
    - impactQuoteNumerator reserveIn reserveOut feeBps amountIn * reserveIn * 10000

/-- Integer denominator of the price impact fraction
(`priceImpactDenominator` in the source). -/
def priceImpactDenominator (reserveIn reserveOut feeBps amountIn : Int) : Int :=
  reserveOut * amountIn * impactQuoteDenominator reserveIn reserveOut feeBps amountIn
    * 10000

/-- Exact value of `SaturnSwap.priceImpactPercent`: the source converts
`priceImpactNumerator * 100n` and `priceImpactDenominator` to floating
point and divides only at this final step; the fraction itself is embedded
exactly as a rational. -/
def priceImpactPercentExact (reserveIn reserveOut feeBps amountIn : Int) : ℚ :=
  ((priceImpactNumerator reserveIn reserveOut feeBps amountIn * 100 : Int) : ℚ) /
    ((priceImpactDenominator reserveIn reserveOut feeBps amountIn : Int) : ℚ)

/-- Claim C8: `priceImpactPercent` is computed from the same
arbitrary-precision integer intermediate terms as `estimatedReceive`, with
floating point only at the final percentage.  First conjunct: the amount
actually quoted by `estimatedReceive` is exactly the truncated quotient of
the impact computation's own integer terms.  Second conjunct: the exact
value of the final division is determined by those same terms, via the
polynomial identity `impact * (reserveOut * 10000 * quoteDenominator) =
100 * (10000 - feeBps) * quoteNumerator`. -/
theorem priceImpactPercent_from_quote_terms
    (reserveIn reserveOut feeBps amountIn : Int)
    (hrIn : 0 < reserveIn) (hrOut : 0 < reserveOut)
    (hf0 : 0 ≤ feeBps) (hf1 : feeBps < 10000) (ha : 0 < amountIn) :
    estimatedReceive reserveIn reserveOut feeBps amountIn =
      some ((impactQuoteNumerator reserveIn reserveOut feeBps amountIn).tdiv
        (impactQuoteDenominator reserveIn reserveOut feeBps amountIn)) ∧
    priceImpactPercentExact reserveIn reserveOut feeBps amountIn *
        ((reserveOut * 10000 *
          impactQuoteDenominator reserveIn reserveOut feeBps amountIn : Int) : ℚ) =
      100 * ((10000 - feeBps : Int) : ℚ) *
        ((impactQuoteNumerator reserveIn reserveOut feeBps amountIn : Int) : ℚ) := by
  have hfpos : (0 : Int) < 10000 - feeBps := by omega
  have hden : 0 < impactQuoteDenominator reserveIn reserveOut feeBps amountIn := by
    have h1 : 0 < amountIn * (10000 - feeBps) := mul_pos ha hfpos
    have h2 : 0 < reserveIn * 10000 := by positivity
    simp only [impactQuoteDenominator]
    omega
  constructor
  · simp only [estimatedReceive, impactQuoteNumerator, impactQuoteDenominator]
    simp only [impactQuoteDenominator] at hden
    rw [if_neg (by omega)]
    congr 2
    ring
  · have hPID : priceImpactDenominator reserveIn reserveOut feeBps amountIn ≠ 0 := by
      have : 0 < priceImpactDenominator reserveIn reserveOut feeBps amountIn := by
        simp only [priceImpactDenominator]
        positivity
      omega
    have hPIDQ : ((priceImpactDenominator reserveIn reserveOut feeBps amountIn : Int) : ℚ) ≠ 0 := by
      exact_mod_cast hPID
    simp only [priceImpactPercentExact]
    rw [div_mul_eq_mul_div, div_eq_iff hPIDQ]
    simp only [priceImpactNumerator, priceImpactDenominator,
      impactQuoteNumerator, impactQuoteDenominator]
    push_cast
    ring

/-- Witness for claim C8, at `reserveIn = 1000000`, `reserveOut = 2000000`,
`feeBps = 30`, `amountIn = 10000`. -/
theorem priceImpactPercent_from_quote_terms_witness :
    estimatedReceive 1000000 2000000 30 10000 =
      some ((impactQuoteNumerator 1000000 2000000 30 10000).tdiv
        (impactQuoteDenominator 1000000 2000000 30 10000)) ∧
    priceImpactPercentExact 1000000 2000000 30 10000 *
        ((2000000 * 10000 * impactQuoteDenominator 1000000 2000000 30 10000 : Int) : ℚ) =
      100 * ((10000 - 30 : Int) : ℚ) *
        ((impactQuoteNumerator 1000000 2000000 30 10000 : Int) : ℚ) :=
  priceImpactPercent_from_quote_terms 1000000 2000000 30 10000 (by decide)
    (by decide) (by decide) (by decide) (by decide)

/-! ### Order lifecycle, from `SaturnSwap.buildSwapOrder`,
`SaturnSwap.buildCancelSwapOrder` and `SaturnSwap.swapOrderFees`
(`src/dex/saturnswap.ts`, the variant with the full payment assembly). -/

/-- Token: ADA (`lovelace`) or a native asset with policy id and asset
name. -/
inductive Token where
  | lovelace
  | asset (policyId : String) (assetName : String)
deriving DecidableEq

/-- Swap fee entry, as in the `SwapFee` record of the source. -/
structure SwapFee where
  id : String
  title : String
  description : String
  value : Int
  isReturned : Bool
deriving DecidableEq

/-- Plutus script reference carried by a spend instruction. -/
structure Script where
  scriptType : String
  script : String
deriving DecidableEq

/-- Unspent transaction output, with the fields the SaturnSwap methods
read. -/
structure UTxO where
  address : String
  assetBalances : List (Token × Int)
  txHash : String
  outputIndex : Nat
  datumHash : Option String
deriving DecidableEq

/-- Spend instruction attached to a payment. -/
structure SpendUTxO where
  utxo : UTxO
  redeemer : String
  validator : Script
  signer : String
deriving DecidableEq

/-- Address kind of a payment target. -/
inductive AddressType where
  | contract
  | base
deriving DecidableEq

/-- Payment returned by the order-building methods. -/
structure PayToAddress where
  address : String
  addressType : AddressType
  assetBalances : List (Token × Int)
  datum : Option EncodedDatum
  isInlineDatum : Bool
  spendUtxos : List SpendUTxO

/-- Minimal stand-in for the external `LiquidityPool` model class, which
`buildSwapOrder` receives but never reads. -/
structure LiquidityPool where
  identifier : String
  reserveA : Int
  reserveB : Int

/-- Typed failures of the SaturnSwap order lifecycle.  The source rejects
with strings; `configurationError` is the rejection
`Deposit fee not configured.` and `orderNotFound` the rejection
`Unable to find Saturn order UTxO for cancellation.`; `missingParameter`
stands for a `pushParameters` throw propagated out of the datum builder,
and `invalidParameters` for the `TypeError` of adding an absent sell
amount. -/
inductive DexError where
  | configurationError
  | missingParameter
  | invalidParameters
  | orderNotFound
deriving DecidableEq

/-- On-chain order contract address of SaturnSwap (`MAIN_ADDRESS` /
`orderAddress` in the source). -/
def orderAddress : String :=
  "addr1q80ukhmvgtm498e3h6pwpe52whpdh98yy4qfwup5zqg7lqz75jq4yvpskgayj55xegdp30g5rfynax66r8vgn9fldndskl33sd"

/-- Fixed cancellation redeemer (`cancelDatum` in the source,
`CancelAction(0)`). -/
def cancelDatum : String := "d87a8100"

/-- Order validator script reference (`orderScript` in the source). -/
def orderScript : Script :=
  { scriptType := "PlutusV2",
    script := "3cf991c2d5b47006c2106c105332456af4d88321301f292f434ad01b" }

/-- Embeds `SaturnSwap.swapOrderFees`: ignores its three optional
arguments and returns the single fixed deposit fee of 2,000,000
lovelace. -/
def swapOrderFees (liquidityPool : Option LiquidityPool) (swapInToken : Option Token)
    (swapInAmount : Option Int) : List SwapFee :=
  [{ id := "deposit",
     title := "Deposit",
     description := "Minimum ADA required for the order UTxO. Returned when order is executed or cancelled.",
     value := 2000000,
     isReturned := true }]

/-- JavaScript falsiness of a datum parameter value (`0n` and the empty
string are falsy). -/
def falsyValue : DatumValue → Bool
  | .int i => i == 0
  | .bytes s => s == ""

/-- Removes every entry under a key from a parameter table. -/
def removeKey (P : ParameterTable) (k : String) : ParameterTable :=
  P.filter (fun kv => kv.1 != k)

/-- Embeds the parameter-spread of `buildSwapOrder`: the caller table
extended with `DepositFee` set to the deposit value, `Unknown` set to the
empty string, and `Expiration` kept only when the caller supplied a truthy
value (the source assigns `swapParameters[Expiration] || undefined`, and an
`undefined` property reads back as absent). -/
def augmentSwapParameters (depositValue : Int) (P : ParameterTable) : ParameterTable :=
  let base := ("Unknown", DatumValue.bytes "") ::
    ("DepositFee", DatumValue.int depositValue) :: P
  match findVal P "Expiration" with
  | some v =>
    if falsyValue v then removeKey base "Expiration"
    else ("Expiration", v) :: base
  | none => removeKey base "Expiration"

/-- Asset attached by `buildSwapOrder`: the sell token when the caller
supplied a truthy `SwapInTokenPolicyId`, otherwise lovelace.  A non-byte
policy value is not given an asset reading here; the claims never supply
one. -/
def swapInAsset (P : ParameterTable) : Token :=
  match findVal P "SwapInTokenPolicyId" with
  | some (.bytes p) =>
    if p = "" then Token.lovelace
    else Token.asset p
      (match findVal P "SwapInTokenAssetName" with
       | some (.bytes n) => n
       | _ => "")
  | _ => Token.lovelace

/-- Embeds `SaturnSwap.buildSwapOrder`, with the fee schedule returned by
`this.swapOrderFees()` abstracted into the `fees` argument (the method is
dynamically dispatched in the source).  Looks up the `deposit` fee and
rejects with `Deposit fee not configured.` when absent; builds the order
datum by pushing the augmented parameters through `orderDefinition`;
attaches the deposit value plus the sell amount to a single payment at the
order contract address with the inline datum. -/
def buildSwapOrderWith (fees : List SwapFee) (liquidityPool : LiquidityPool)
    (swapParameters : ParameterTable) (spendUtxos : List SpendUTxO) :
    Except DexError (List PayToAddress) :=
  match fees.find? (fun fee => fee.id == "deposit") with
  | none => .error .configurationError
  | some deposit =>
    match pushNode orderDefinition
        (augmentSwapParameters deposit.value swapParameters) with
    | none => .error .missingParameter
    | some datum =>
      match findVal swapParameters "SwapInAmount" with
      | some (.int swapInAmount) =>
        .ok [{ address := orderAddress,
               addressType := .contract,
               assetBalances :=
                 [(swapInAsset swapParameters, deposit.value + swapInAmount)],
               datum := some datum,
               isInlineDatum := true,
               spendUtxos := spendUtxos }]
      | _ => .error .invalidParameters

/-- `SaturnSwap.buildSwapOrder` with its own fee schedule. -/
def buildSwapOrder (liquidityPool : LiquidityPool)
    (swapParameters : ParameterTable) (spendUtxos : List SpendUTxO) :
    Except DexError (List PayToAddress) :=
  buildSwapOrderWith (swapOrderFees none none none) liquidityPool
    swapParameters spendUtxos

/-- Recognizes the `Deposit fee not configured.` rejection. -/
def isConfigurationError : Except DexError (List PayToAddress) → Bool
  | .error .configurationError => true
  | _ => false

/-- Embeds `SaturnSwap.buildCancelSwapOrder`: finds the first prior output
at the order contract address, rejects with
`Unable to find Saturn order UTxO for cancellation.` when none matches,
and otherwise pays all of the matched output's assets back to the return
address, spending the output with the fixed cancellation redeemer and the
order validator. -/
def buildCancelSwapOrder (txOutputs : List UTxO) (returnAddress : String) :
    Except DexError (List PayToAddress) :=
  match txOutputs.find? (fun utxo => utxo.address == orderAddress) with
  | none => .error .orderNotFound
  | some relevantUtxo =>
    .ok [{ address := returnAddress,
           addressType := .base,
           assetBalances := relevantUtxo.assetBalances,
           datum := none,
           isInlineDatum := false,
           spendUtxos := [{ utxo := relevantUtxo,
                            redeemer := cancelDatum,
                            validator := orderScript,
                            signer := returnAddress }] }]

theorem isConfigurationError_buildSwapOrderWith (fees : List SwapFee)
    (liquidityPool : LiquidityPool) (swapParameters : ParameterTable)
    (spendUtxos : List SpendUTxO) :
    isConfigurationError
        (buildSwapOrderWith fees liquidityPool swapParameters spendUtxos) = true ↔
      fees.find? (fun fee => fee.id == "deposit") = none := by
  cases hdep : fees.find? (fun fee => fee.id == "deposit") with
  | none => simp [buildSwapOrderWith, hdep, isConfigurationError]
  | some deposit =>
    simp only [buildSwapOrderWith, hdep]
    cases hpush : pushNode orderDefinition
        (augmentSwapParameters deposit.value swapParameters) with
    | none => simp [isConfigurationError]
    | some datum =>
      cases hsell : findVal swapParameters "SwapInAmount" with
      | none => simp [isConfigurationError]
      | some v =>
        cases v with
        | bytes s => simp [isConfigurationError]
        | int i => simp [isConfigurationError]

/-- Claim C6: whenever the fee schedule carries a deposit entry, the
augmented parameters push through the order schema, and the parameter set
carries a sell amount, `buildSwapOrder` returns exactly one payment to the
order contract address carrying the encoded datum inline and attaching the
deposit value plus the sell amount; and it fails with the configuration
error exactly when the schedule has no `deposit` entry. -/
theorem buildSwapOrder_payment (fees : List SwapFee)
    (liquidityPool : LiquidityPool) (swapParameters : ParameterTable)
    (spendUtxos : List SpendUTxO) (deposit : SwapFee) (datum : EncodedDatum)
    (sellAmount : Int)
    (hdep : fees.find? (fun fee => fee.id == "deposit") = some deposit)
    (hpush : pushNode orderDefinition
      (augmentSwapParameters deposit.value swapParameters) = some datum)
    (hsell : findVal swapParameters "SwapInAmount" =
      some (.int sellAmount)) :
    buildSwapOrderWith fees liquidityPool swapParameters spendUtxos =
      .ok [{ address := orderAddress,
             addressType := .contract,
             assetBalances :=
               [(swapInAsset swapParameters, deposit.value + sellAmount)],
             datum := some datum,
             isInlineDatum := true,
             spendUtxos := spendUtxos }] ∧
    (∀ (fees2 : List SwapFee) (lp2 : LiquidityPool) (sp2 : ParameterTable)
      (su2 : List SpendUTxO),
      isConfigurationError (buildSwapOrderWith fees2 lp2 sp2 su2) = true ↔
        fees2.find? (fun fee => fee.id == "deposit") = none) := by
  refine ⟨?_, fun fees2 lp2 sp2 su2 =>
    isConfigurationError_buildSwapOrderWith fees2 lp2 sp2 su2⟩
  simp only [buildSwapOrderWith, hdep, hpush, hsell]

/-- Witness for claim C6: the payment theorem applied to the actual fee
schedule and the concrete order parameter table, producing the concrete
deposit-plus-sell payment. -/
theorem buildSwapOrder_payment_witness :
    ∃ datum, pushNode orderDefinition
        (augmentSwapParameters 2000000 orderTableExample) = some datum ∧
      buildSwapOrderWith (swapOrderFees none none none)
          ⟨"pool0", 0, 0⟩ orderTableExample [] =
        .ok [{ address := orderAddress,
               addressType := .contract,
               assetBalances :=
                 [(swapInAsset orderTableExample, 2000000 + 100)],
               datum := some datum,
               isInlineDatum := true,
               spendUtxos := [] }] := by
  have hs : (pushNode orderDefinition
      (augmentSwapParameters 2000000 orderTableExample)).isSome = true := by
    decide
  refine ⟨Option.get _ hs, (Option.some_get hs).symm, ?_⟩
  exact (buildSwapOrder_payment (swapOrderFees none none none) ⟨"pool0", 0, 0⟩
    orderTableExample [] _ (Option.get _ hs) 100 rfl
    (Option.some_get hs).symm (by decide)).1

/-- Claim C7: `buildCancelSwapOrder` fails with the order-not-found
rejection exactly when no prior output sits at the order contract address
(and, being a pure function of its arguments, modifies nothing on
failure); otherwise it returns one spend instruction carrying the fixed
cancellation redeemer and the order validator, and directing all assets of
the matched output back to the return address. -/
theorem buildCancelSwapOrder_spec (txOutputs : List UTxO)
    (returnAddress : String) :
    (buildCancelSwapOrder txOutputs returnAddress = .error .orderNotFound ↔
      ∀ u ∈ txOutputs, u.address ≠ orderAddress) ∧
    (∀ u, txOutputs.find? (fun utxo => utxo.address == orderAddress) = some u →
      buildCancelSwapOrder txOutputs returnAddress =
        .ok [{ address := returnAddress,
               addressType := .base,
               assetBalances := u.assetBalances,
               datum := none,
               isInlineDatum := false,
               spendUtxos := [{ utxo := u,
                                redeemer := cancelDatum,
                                validator := orderScript,
                                signer := returnAddress }] }]) := by
  constructor
  · cases hfind : txOutputs.find? (fun utxo => utxo.address == orderAddress) with
    | none =>
      simp only [buildCancelSwapOrder, hfind]
      constructor
      · intro _ u hu
        have := List.find?_eq_none.mp hfind u hu
        simpa using this
      · intro _; trivial
    | some u =>
      simp only [buildCancelSwapOrder, hfind]
      constructor
      · intro h; simp at h
      · intro hall
        have hu : u ∈ txOutputs := List.mem_of_find?_eq_some hfind
        have hp := List.find?_some hfind
        exact absurd (by simpa using hp) (hall u hu)
  · intro u hfind
    simp only [buildCancelSwapOrder, hfind]

/-- Concrete prior output sitting at the order contract address. -/
def cancellableUtxo : UTxO :=
  { address := orderAddress,
    assetBalances := [(Token.lovelace, 5000000)],
    txHash := "aa00",
    outputIndex := 0,
    datumHash := none }

/-- Witness for claim C7: the cancellation theorem applied to a concrete
output list whose first element sits at the order contract address. -/
theorem buildCancelSwapOrder_spec_witness :
    buildCancelSwapOrder [cancellableUtxo] "addr1ret" =
      .ok [{ address := "addr1ret",
             addressType := .base,
             assetBalances := cancellableUtxo.assetBalances,
             datum := none,
             isInlineDatum := false,
             spendUtxos := [{ utxo := cancellableUtxo,
                              redeemer := cancelDatum,
                              validator := orderScript,
                              signer := "addr1ret" }] }] :=
  (buildCancelSwapOrder_spec [cancellableUtxo] "addr1ret").2 cancellableUtxo
    (by decide)

/-- Claim C10: `swapOrderFees` returns, for every combination of its
optional arguments, exactly one fee with id `deposit` and value 2,000,000
lovelace; consequently the `Deposit fee not configured.` branch of
`buildSwapOrder` is unreachable — `buildSwapOrder` never fails with the
configuration error. -/
theorem swapOrderFees_fixed_deposit :
    (∀ (liquidityPool : Option LiquidityPool) (swapInToken : Option Token)
      (swapInAmount : Option Int),
      swapOrderFees liquidityPool swapInToken swapInAmount =
        [{ id := "deposit",
           title := "Deposit",
           description := "Minimum ADA required for the order UTxO. Returned when order is executed or cancelled.",
           value := 2000000,
           isReturned := true }]) ∧
    (∀ (liquidityPool : LiquidityPool) (swapParameters : ParameterTable)
      (spendUtxos : List SpendUTxO),
      isConfigurationError
        (buildSwapOrder liquidityPool swapParameters spendUtxos) = false) := by
  refine ⟨fun _ _ _ => rfl, fun liquidityPool swapParameters spendUtxos => ?_⟩
  have h := isConfigurationError_buildSwapOrderWith (swapOrderFees none none none)
    liquidityPool swapParameters spendUtxos
  cases hc : isConfigurationError
      (buildSwapOrderWith (swapOrderFees none none none) liquidityPool
        swapParameters spendUtxos) with
  | false => exact hc
  | true =>
    have : (swapOrderFees none none none).find?
        (fun fee => fee.id == "deposit") = none := h.mp hc
    exact absurd this (by decide)

/-! ### Datum probing, from `decodeSwapDatum` and `decodeControlDatum`
(unnamed decode source file).

Both functions run inside a `try`/`catch` whose handler logs and returns
`null`.  The `Core` functions below embed the `try` block, with thrown
`Error` messages as `Except.error`; the exported functions embed the whole
body, collapsing every failure to `none` (the returned `null`).  The input
is the value tree produced by the external `Data.from` CBOR parser. -/

/-- Fields of a decoded SaturnSwap `SwapDatum`.  Values the source keeps
raw (owner, policy ids, asset names, output reference) stay embedded
datum trees. -/
structure SwapDatum where
  owner : EncodedDatum
  sellPolicyId : EncodedDatum
  sellAssetName : EncodedDatum
  sellAmount : Int
  buyPolicyId : EncodedDatum
  buyAssetName : EncodedDatum
  buyAmount : Int
  expiry : Option Int
  outputReference : EncodedDatum

/-- Per-token slice of a decoded SaturnSwap `ControlDatum`. -/
structure TokenControl where
  policyId : EncodedDatum
  assetName : EncodedDatum
  minPrice : Int
  maxPrice : Int
  precision : Int

/-- Decoded SaturnSwap `ControlDatum`. -/
structure ControlDatum where
  tokenOne : TokenControl
  tokenTwo : TokenControl
  isActive : Bool

/-- Constructor tag of a datum tree, when it is a constructor (the `index`
property read by the decoders; absent on leaves). -/
def constrTag : EncodedDatum → Option Nat
  | .constr t _ => some t
  | _ => none

/-- Expiry parsing of `decodeSwapDatum`: `fields[7].index === 0` selects
`Some(timestamp)`; any other shape reads as `null`; a `Some` wrapper whose
payload the `BigInt` conversion rejects throws. -/
def decodeExpiry : EncodedDatum → Except String (Option Int)
  | .constr 0 (.cons (.int i) _) => .ok (some i)
  | .constr 0 .nil => .error "BigInt of undefined"
  | .constr 0 (.cons _ _) => .error "BigInt conversion failed"
  | _ => .ok none

/-- The `isActive` reading of `decodeControlDatum`:
`fields[10].index === 1`; a non-constructor value reads as `false`. -/
def isActiveFlag : EncodedDatum → Bool
  | .constr 1 _ => true
  | _ => false

/-- Embeds the `try` block of `decodeSwapDatum`: requires constructor
index 0 (else throws `Invalid SwapDatum constructor index`), exactly nine
fields (else `Invalid SwapDatum fields`), integer amounts at positions 3
and 6, and the expiry option at position 7. -/
def decodeSwapDatumCore : EncodedDatum → Except String SwapDatum
  | .constr 0 (.cons owner (.cons psell (.cons asell (.cons amountSell
      (.cons pbuy (.cons abuy (.cons amountBuy (.cons validBefore
      (.cons outRef .nil))))))))) =>
    match amountSell, amountBuy with
    | .int sellA, .int buyA =>
      match decodeExpiry validBefore with
      | .ok e =>
        .ok { owner := owner,
              sellPolicyId := psell,
              sellAssetName := asell,
              sellAmount := sellA,
              buyPolicyId := pbuy,
              buyAssetName := abuy,
              buyAmount := buyA,
              expiry := e,
              outputReference := outRef }
      | .error msg => .error msg
    | _, _ => .error "BigInt conversion failed"
  | .constr 0 _ => .error "Invalid SwapDatum fields"
  | _ => .error "Invalid SwapDatum constructor index"

/-- Embeds `decodeSwapDatum`: the `try` block with every thrown failure
caught and returned as `null`. -/
def decodeSwapDatum (d : EncodedDatum) : Option SwapDatum :=
  (decodeSwapDatumCore d).toOption

/-- Embeds the `try` block of `decodeControlDatum`: a constructor index
other than 2 returns `null` without throwing (probing for the other
`LiquidityDatum` variants); eleven fields are required (else
`Invalid ControlDatum fields`) with integer prices and precisions. -/
def decodeControlDatumCore : EncodedDatum → Except String (Option ControlDatum)
  | .constr 2 (.cons p1 (.cons a1 (.cons f2 (.cons f3 (.cons f4 (.cons p2
      (.cons a2 (.cons f7 (.cons f8 (.cons f9
      (.cons active .nil))))))))))) =>
    match f2, f3, f4, f7, f8, f9 with
    | .int min1, .int max1, .int prec1, .int min2, .int max2, .int prec2 =>
      .ok (some { tokenOne := ⟨p1, a1, min1, max1, prec1⟩,
                  tokenTwo := ⟨p2, a2, min2, max2, prec2⟩,
                  isActive := isActiveFlag active })
    | _, _, _, _, _, _ => .error "BigInt conversion failed"
  | .constr 2 _ => .error "Invalid ControlDatum fields"
  | _ => .ok none

/-- Embeds `decodeControlDatum`: the `try` block with thrown failures
caught and returned as `null`. -/
def decodeControlDatum (d : EncodedDatum) : Option ControlDatum :=
  match decodeControlDatumCore d with
  | .ok r => r
  | .error _ => none

/-- Counterexample to claim C9: pulling a datum with constructor tag 1
through `decodeSwapDatum`, and one with tag 0 through
`decodeControlDatum`, returns `null` — the failure is coerced to the
default value instead of surfacing a typed `SchemaMismatch` to the
caller. -/
theorem decode_wrong_tag_counterexample :
    decodeSwapDatum (.constr 1 .nil) = none ∧
    decodeControlDatum (.constr 0 .nil) = none :=
  ⟨rfl, rfl⟩

/-- Claim C9 as amended: on a datum whose constructor tag differs from the
expected one, neither decoder returns a partial result, but neither
surfaces a typed failure either.  `decodeSwapDatum` throws the
constructor-index error inside its `try` block and its `catch` coerces it
to `null`; `decodeControlDatum` returns `null` directly without even
throwing. -/
theorem decode_wrong_tag_is_nulled (d : EncodedDatum) :
    (constrTag d ≠ some 0 →
      decodeSwapDatumCore d = .error "Invalid SwapDatum constructor index" ∧
      decodeSwapDatum d = none) ∧
    (constrTag d ≠ some 2 →
      decodeControlDatumCore d = .ok none ∧
      decodeControlDatum d = none) := by
  cases d with
  | constr t fields =>
    constructor
    · intro h
      have ht : t ≠ 0 := by simpa [constrTag] using h
      cases t with
      | zero => exact absurd rfl ht
      | succ n => exact ⟨rfl, rfl⟩
    · intro h
      have ht : t ≠ 2 := by simpa [constrTag] using h
      match t, ht with
      | 0, _ => exact ⟨rfl, rfl⟩
      | 1, _ => exact ⟨rfl, rfl⟩
      | 2, ht => exact absurd rfl ht
      | n + 3, _ => exact ⟨rfl, rfl⟩
  | bytes s => exact ⟨fun _ => ⟨rfl, rfl⟩, fun _ => ⟨rfl, rfl⟩⟩
  | int i => exact ⟨fun _ => ⟨rfl, rfl⟩, fun _ => ⟨rfl, rfl⟩⟩

/-- Witness for the amended claim C9, at a constructor-tag-1 datum for the
swap decoder and a constructor-tag-0 datum for the control decoder. -/
theorem decode_wrong_tag_is_nulled_witness :
    (decodeSwapDatumCore (.constr 1 .nil) =
        .error "Invalid SwapDatum constructor index" ∧
      decodeSwapDatum (.constr 1 .nil) = none) ∧
    (decodeControlDatumCore (.constr 0 .nil) = .ok none ∧
      decodeControlDatum (.constr 0 .nil) = none) :=
  ⟨(decode_wrong_tag_is_nulled (.constr 1 .nil)).1 (by decide),
   (decode_wrong_tag_is_nulled (.constr 0 .nil)).2 (by decide)⟩

end Dexter
